import Mathlib

/-!
# Verification of `blocking_queue` (src/monte_carlo.cpp, lines 196-289)

The repository's core is a thread-safe FIFO blocking queue built as a
classic monitor: a `std::queue<T>` buffer guarded by one mutex plus one
condition variable.  Every member function runs its whole body under the
mutex, so each call is a single atomic action on the buffer; the shallow
embedding below therefore models the buffer as a list (front first) and
each member function as a state transformer on it.  The blocking behaviour
of `pop` and the wait/notify protocol are modelled by a labelled transition
system whose atomic steps are exactly the critical sections of the source.
-/

namespace BQ

/-- The C++ `std::queue<T>`: the sequence of buffered elements, front (oldest) first. -/
structure StdQueue (T : Type) where
  elems : List T
deriving DecidableEq, Repr

namespace StdQueue

/-- Models `std::queue::push`: inserts the element at the back. -/
def pushBack (q : StdQueue T) (e : T) : StdQueue T := ⟨q.elems ++ [e]⟩

/-- Models `std::queue::front`: reference to the first element; calling it on an
empty queue is undefined behaviour, modelled as `none`. -/
def front (q : StdQueue T) : Option T := q.elems.head?

/-- Models `std::queue::pop`: removes the first element (no effect modelled for the
undefined empty case beyond dropping nothing). -/
def popFront (q : StdQueue T) : StdQueue T := ⟨q.elems.tail⟩

/-- Models `std::queue::empty`. -/
def isEmpty (q : StdQueue T) : Bool := q.elems.isEmpty

/-- Models `std::queue::size`. -/
def size (q : StdQueue T) : Nat := q.elems.length

end StdQueue

/-- The `blocking_queue<T>` object: its only data member is the internal
`std::queue<T> m_queue` (the mutex and condition variable carry no data). -/
structure blocking_queue (T : Type) where
  m_queue : StdQueue T
deriving DecidableEq, Repr

namespace blocking_queue

/-- Construction: `blocking_queue() = default;` — the internal queue starts empty. -/
def new (T : Type) : blocking_queue T := ⟨⟨[]⟩⟩

/-- Member `empty()`: lock the mutex, return `m_queue.empty()`.  The body never
writes to `m_queue`, so the resulting state is the receiver itself. -/
def empty (bq : blocking_queue T) : Bool × blocking_queue T :=
  (bq.m_queue.isEmpty, bq)

/-- Member `size()`: lock the mutex, return `m_queue.size()`. -/
def size (bq : blocking_queue T) : Nat × blocking_queue T :=
  (bq.m_queue.size, bq)

/-- Member `push(elem)`: lock the mutex, `m_queue.push(elem)`, `m_cv.notify_one()`. -/
def push (bq : blocking_queue T) (elem : T) : blocking_queue T :=
  ⟨bq.m_queue.pushBack elem⟩

/-- Member `pop()`: wait on the condition variable until `!m_queue.empty()`, then
read `m_queue.front()` and `m_queue.pop()`.  In this sequential model a call
that would block forever (empty buffer, no further push) yields `none`; the
inner `none` branch is the undefined read of the front of an empty buffer,
proved unreachable below. -/
def pop (bq : blocking_queue T) : Option (T × blocking_queue T) :=
  if bq.m_queue.isEmpty then none
  else
    match bq.m_queue.front with
    | none => none
    | some e => some (e, ⟨bq.m_queue.popFront⟩)

/-- A sequence of `push` calls, left to right. -/
def pushList (bq : blocking_queue T) (es : List T) : blocking_queue T :=
  es.foldl push bq

/-- Runs `n` consecutive `pop()` calls, collecting the returned elements in call
order; `none` if any call would block forever. -/
def popN : Nat → blocking_queue T → Option (List T × blocking_queue T)
  | 0, bq => some ([], bq)
  | n + 1, bq =>
    match bq.pop with
    | none => none
    | some (e, bq') =>
      match popN n bq' with
      | none => none
      | some (es, bq'') => some (e :: es, bq'')

end blocking_queue

/-! ## Serialized operation traces

The mutex serializes every critical section, so any concurrent execution of
`push`/`pop` calls is observationally a sequential trace of completed
operations in lock-acquisition order. -/

/-- One completed queue operation, in the serialization order enforced by
the mutex. -/
inductive QOp (T : Type)
  | pushOp : T → QOp T
  | popOp : QOp T
deriving DecidableEq, Repr

/-- The elements inserted by the `push` operations of a trace, in order. -/
def pushedOf : List (QOp T) → List T
  | [] => []
  | QOp.pushOp e :: tr => e :: pushedOf tr
  | QOp.popOp :: tr => pushedOf tr

/-- The number of `pop` operations in a trace. -/
def popCount : List (QOp T) → Nat
  | [] => 0
  | QOp.pushOp _ :: tr => popCount tr
  | QOp.popOp :: tr => popCount tr + 1

/-- Runs a serialized trace of operations on the queue, collecting the
elements returned by the `pop` calls in return order; `none` if some `pop`
would block forever. -/
def runTrace : List (QOp T) → blocking_queue T → Option (List T × blocking_queue T)
  | [], bq => some ([], bq)
  | QOp.pushOp e :: tr, bq => runTrace tr (bq.push e)
  | QOp.popOp :: tr, bq =>
    match bq.pop with
    | none => none
    | some (e, bq') =>
      match runTrace tr bq' with
      | none => none
      | some (es, bqf) => some (e :: es, bqf)

/-! ## The monitor transition system

The concurrent behaviour of the monitor: each step is one critical section
(the body of `push`, the predicate check of the condition-variable wait in
`pop`, or the removal of the head once the predicate holds).  `waiting`
counts the threads suspended inside `m_cv.wait` in `pop`. -/

/-- Global monitor state: the buffer contents plus the number of threads
suspended inside the condition-variable wait of `pop`. -/
structure MonState (T : Type) where
  buffer : List T
  waiting : Nat
deriving DecidableEq, Repr

/-- Observable events of the monitor. -/
inductive Label (T : Type)
  | pushDone : T → Label T
  | popReturn : T → Label T
  | popBlocks : Label T
  | wakeRecheck : Label T
deriving DecidableEq, Repr

/-- One atomic critical section of the monitor, translated from the source:
`push` appends at the back and notifies; a thread entering `pop` suspends
exactly when the wait predicate `!m_queue.empty()` fails; a suspended thread
that is woken re-evaluates the predicate and either removes the front
element (predicate holds) or waits again (spurious wakeup or the element was
already drained); a thread entering `pop` with a non-empty buffer removes
the front element without suspending. -/
inductive Step : MonState T → Label T → MonState T → Prop
  | pushStep (s : MonState T) (e : T) :
      Step s (Label.pushDone e) ⟨s.buffer ++ [e], s.waiting⟩
  | popSuspend (s : MonState T) (h : s.buffer = []) :
      Step s Label.popBlocks ⟨[], s.waiting + 1⟩
  | popResume (s : MonState T) (e : T) (rest : List T)
      (h : s.buffer = e :: rest) (hw : 0 < s.waiting) :
      Step s (Label.popReturn e) ⟨rest, s.waiting - 1⟩
  | popImmediate (s : MonState T) (e : T) (rest : List T)
      (h : s.buffer = e :: rest) :
      Step s (Label.popReturn e) ⟨rest, s.waiting⟩
  | wakeEmpty (s : MonState T) (h : s.buffer = []) (hw : 0 < s.waiting) :
      Step s Label.wakeRecheck s

/-- The two logical states of the specification's per-instance state machine. -/
inductive LState
  | EMPTY
  | NON_EMPTY
deriving DecidableEq, Repr

/-- The logical state of a queue instance: `EMPTY` iff the buffer holds no
elements. -/
def lstate (bq : blocking_queue T) : LState :=
  if bq.m_queue.isEmpty then LState.EMPTY else LState.NON_EMPTY

/-! ## Basic buffer lemmas -/

theorem push_elems (bq : blocking_queue T) (e : T) :
    (bq.push e).m_queue.elems = bq.m_queue.elems ++ [e] := rfl

theorem pushList_elems (es : List T) (bq : blocking_queue T) :
    (bq.pushList es).m_queue.elems = bq.m_queue.elems ++ es := by
  induction es generalizing bq with
  | nil => simp [blocking_queue.pushList]
  | cons e es ih =>
    show ((bq.push e).pushList es).m_queue.elems = _
    rw [ih, push_elems]
    simp

theorem pop_cons (e : T) (rest : List T) :
    blocking_queue.pop ⟨⟨e :: rest⟩⟩ = some (e, ⟨⟨rest⟩⟩) := rfl

theorem pop_eq_none_iff (bq : blocking_queue T) :
    bq.pop = none ↔ bq.m_queue.elems = [] := by
  cases bq with
  | mk q =>
    cases q with
    | mk l =>
      cases l with
      | nil => simp [blocking_queue.pop, StdQueue.isEmpty]
      | cons e rest => simp [pop_cons]

theorem pop_eq_some (bq : blocking_queue T) (e : T) (bq' : blocking_queue T) :
    bq.pop = some (e, bq') ↔
      bq.m_queue.elems = e :: bq'.m_queue.elems ∧ bq' = ⟨⟨bq'.m_queue.elems⟩⟩ := by
  cases bq with
  | mk q =>
    cases q with
    | mk l =>
      cases l with
      | nil => simp [blocking_queue.pop, StdQueue.isEmpty]
      | cons x rest =>
        rw [pop_cons]
        constructor
        · rintro h
          rw [Option.some_inj] at h
          obtain ⟨h1, h2⟩ := Prod.mk.injEq x (⟨⟨rest⟩⟩ : blocking_queue T) e bq' ▸ h
          subst h1
          cases h2
          simp
        · rintro ⟨h1, h2⟩
          rw [show bq' = ⟨⟨rest⟩⟩ by cases bq' with
            | mk q' => cases q' with
              | mk l' =>
                simp only [List.cons.injEq] at h1
                simp [h1.2]]
          simp only [List.cons.injEq] at h1
          rw [h1.1]

theorem popN_of_elems (n : Nat) (bq : blocking_queue T) (h : n ≤ bq.m_queue.elems.length) :
    bq.popN n = some (bq.m_queue.elems.take n, ⟨⟨bq.m_queue.elems.drop n⟩⟩) := by
  induction n generalizing bq with
  | zero =>
    cases bq with
    | mk q => cases q with
      | mk l => simp [blocking_queue.popN]
  | succ n ih =>
    cases bq with
    | mk q => cases q with
      | mk l =>
        cases l with
        | nil => simp at h
        | cons e rest =>
          simp only [List.length_cons, Nat.succ_le_succ_iff] at h
          simp only [blocking_queue.popN, pop_cons]
          rw [ih ⟨⟨rest⟩⟩ h]
          simp

theorem runTrace_perm (tr : List (QOp T)) (bq : blocking_queue T)
    (popped : List T) (bqf : blocking_queue T)
    (h : runTrace tr bq = some (popped, bqf)) :
    List.Perm (bq.m_queue.elems ++ pushedOf tr) (popped ++ bqf.m_queue.elems) := by
  induction tr generalizing bq popped with
  | nil =>
    simp only [runTrace, Option.some_inj, Prod.mk.injEq] at h
    obtain ⟨h1, h2⟩ := h
    subst h1; subst h2
    simp [pushedOf]
  | cons op tr ih =>
    cases op with
    | pushOp e =>
      simp only [runTrace] at h
      have := ih (bq.push e) popped h
      rw [push_elems] at this
      simpa [pushedOf, List.append_assoc] using this
    | popOp =>
      simp only [runTrace] at h
      cases hpop : bq.pop with
      | none => rw [hpop] at h; simp at h
      | some p =>
        obtain ⟨e, bq'⟩ := p
        rw [hpop] at h
        dsimp only at h
        cases hrun : runTrace tr bq' with
        | none => rw [hrun] at h; simp at h
        | some q =>
          obtain ⟨es, bqg⟩ := q
          rw [hrun] at h
          simp only [Option.some_inj, Prod.mk.injEq] at h
          obtain ⟨h1, h2⟩ := h
          subst h1; subst h2
          have helems := ((pop_eq_some bq e bq').1 hpop).1
          have := ih bq' es hrun
          rw [helems]
          simpa [pushedOf] using List.Perm.cons e this

theorem runTrace_popped_length (tr : List (QOp T)) (bq : blocking_queue T)
    (popped : List T) (bqf : blocking_queue T)
    (h : runTrace tr bq = some (popped, bqf)) :
    popped.length = popCount tr := by
  induction tr generalizing bq popped with
  | nil =>
    simp only [runTrace, Option.some_inj, Prod.mk.injEq] at h
    rw [← h.1]
    simp [popCount]
  | cons op tr ih =>
    cases op with
    | pushOp e =>
      simp only [runTrace] at h
      simpa [popCount] using ih (bq.push e) popped h
    | popOp =>
      simp only [runTrace] at h
      cases hpop : bq.pop with
      | none => rw [hpop] at h; simp at h
      | some p =>
        obtain ⟨e, bq'⟩ := p
        rw [hpop] at h
        dsimp only at h
        cases hrun : runTrace tr bq' with
        | none => rw [hrun] at h; simp at h
        | some q =>
          obtain ⟨es, bqg⟩ := q
          rw [hrun] at h
          simp only [Option.some_inj, Prod.mk.injEq] at h
          obtain ⟨h1, h2⟩ := h
          subst h2
          rw [← h1]
          simp [popCount, ih bq' es hrun]


/-! ## Claim theorems -/

/-- C1: FIFO order — after `push(e1), …, push(en)` on a freshly constructed
queue with no interleaved `pop`, the buffer's sequence equals the insertion
order `e1, …, en`, and `n` subsequent `pop()` calls return `e1, …, en` in
that exact order, leaving the queue empty again. -/
theorem fifo_order (T : Type) (es : List T) :
    ((blocking_queue.new T).pushList es).m_queue.elems = es ∧
    ((blocking_queue.new T).pushList es).popN es.length =
      some (es, blocking_queue.new T) := by
  have h1 : ((blocking_queue.new T).pushList es).m_queue.elems = es := by
    rw [pushList_elems]
    rfl
  refine ⟨h1, ?_⟩
  have h2 := popN_of_elems es.length ((blocking_queue.new T).pushList es)
    (by rw [h1])
  rw [h1] at h2
  simpa [blocking_queue.new] using h2

/-- C9: observers are pure snapshots — `empty()` and `size()` return values
computed from the buffer at that instant and leave the queue state (elements,
order and count) completely unchanged. -/
theorem observers_pure_snapshots (T : Type) (bq : blocking_queue T) :
    bq.empty = (bq.m_queue.elems.isEmpty, bq) ∧
    bq.size = (bq.m_queue.elems.length, bq) :=
  ⟨rfl, rfl⟩

/-- C10: observer agreement — on the same buffer contents, `empty()` returns
`true` exactly when `size()` returns `0`. -/
theorem empty_iff_size_zero (T : Type) (bq : blocking_queue T) :
    (bq.empty).1 = true ↔ (bq.size).1 = 0 := by
  cases bq with
  | mk q =>
    cases q with
    | mk l =>
      cases l <;>
        simp [blocking_queue.empty, blocking_queue.size, StdQueue.isEmpty,
          StdQueue.size]


/-- C2: no loss and no duplication — for any serialized trace of `push` and
`pop` operations starting from a freshly constructed queue, the multiset of
pushed elements equals the multiset of popped elements together with the
elements still buffered; when the number of `pop` calls equals the number of
`push` calls, the popped multiset equals the pushed multiset exactly. -/
theorem no_loss_no_duplication (T : Type) (tr : List (QOp T))
    (popped : List T) (bqf : blocking_queue T)
    (h : runTrace tr (blocking_queue.new T) = some (popped, bqf)) :
    List.Perm (pushedOf tr) (popped ++ bqf.m_queue.elems) ∧
    (popCount tr = (pushedOf tr).length → List.Perm (pushedOf tr) popped) := by
  have hp := runTrace_perm tr _ popped bqf h
  rw [show (blocking_queue.new T).m_queue.elems = [] from rfl,
    List.nil_append] at hp
  refine ⟨hp, fun hc => ?_⟩
  have hlen := hp.length_eq
  have hpopped := runTrace_popped_length tr _ popped bqf h
  rw [List.length_append] at hlen
  have hnil : bqf.m_queue.elems = [] := by
    have : bqf.m_queue.elems.length = 0 := by omega
    exact List.length_eq_zero.mp this
  simpa [hnil] using hp

/-- Witness for C2: running the trace push 1, push 2, pop, push 3, pop, pop
from a fresh queue pops `[1, 2, 3]` and drains the buffer. -/
theorem no_loss_no_duplication_witness :
    List.Perm
      (pushedOf [QOp.pushOp 1, QOp.pushOp 2, QOp.popOp, QOp.pushOp 3,
        QOp.popOp, QOp.popOp])
      ([1, 2, 3] ++ (blocking_queue.new Nat).m_queue.elems) ∧
    (popCount [QOp.pushOp 1, QOp.pushOp 2, QOp.popOp, QOp.pushOp 3,
        QOp.popOp, QOp.popOp] =
      (pushedOf [QOp.pushOp 1, QOp.pushOp 2, QOp.popOp, QOp.pushOp 3,
        QOp.popOp, QOp.popOp]).length →
      List.Perm
        (pushedOf [QOp.pushOp 1, QOp.pushOp 2, QOp.popOp, QOp.pushOp 3,
          QOp.popOp, QOp.popOp]) [1, 2, 3]) :=
  no_loss_no_duplication Nat
    [QOp.pushOp 1, QOp.pushOp 2, QOp.popOp, QOp.pushOp 3, QOp.popOp,
      QOp.popOp]
    [1, 2, 3] (blocking_queue.new Nat) rfl

/-- C4: snapshot consistency — immediately after construction `empty()`
returns `true` and `size()` returns `0`; after exactly `k > 0` push calls
(a non-empty list of pushed elements) with no intervening pop, `size()`
returns `k` and `empty()` returns `false`. -/
theorem snapshot_consistency (T : Type) (es : List T) (h : es ≠ []) :
    ((blocking_queue.new T).empty).1 = true ∧
    ((blocking_queue.new T).size).1 = 0 ∧
    (((blocking_queue.new T).pushList es).size).1 = es.length ∧
    (((blocking_queue.new T).pushList es).empty).1 = false := by
  refine ⟨rfl, rfl, ?_, ?_⟩
  · simp [blocking_queue.size, StdQueue.size, pushList_elems,
      blocking_queue.new]
  · simp only [blocking_queue.empty, StdQueue.isEmpty, pushList_elems]
    cases es with
    | nil => exact absurd rfl h
    | cons e es => rfl

/-- Witness for C4: two pushes onto a fresh queue give size 2 and a
non-empty queue. -/
theorem snapshot_consistency_witness :
    ((blocking_queue.new Nat).empty).1 = true ∧
    ((blocking_queue.new Nat).size).1 = 0 ∧
    (((blocking_queue.new Nat).pushList [4, 7]).size).1 = [4, 7].length ∧
    (((blocking_queue.new Nat).pushList [4, 7]).empty).1 = false :=
  snapshot_consistency Nat [4, 7] (by simp)

/-- C5: the per-instance state machine — a fresh queue is `EMPTY`; a push
into an `EMPTY` queue yields `NON_EMPTY` (indeed any push yields
`NON_EMPTY`); a successful pop starts from `NON_EMPTY`, reaches `EMPTY`
exactly when it removed the last element and stays `NON_EMPTY` otherwise;
and there is no terminal state: push is enabled in every state and pop is
enabled in every `NON_EMPTY` state. -/
theorem state_machine_transitions (T : Type) (bq bq' : blocking_queue T)
    (e x : T) :
    lstate (blocking_queue.new T) = LState.EMPTY ∧
    (lstate bq = LState.EMPTY → lstate (bq.push e) = LState.NON_EMPTY) ∧
    (bq.pop = some (x, bq') →
      lstate bq = LState.NON_EMPTY ∧
      (bq.m_queue.elems.length = 1 → lstate bq' = LState.EMPTY) ∧
      (1 < bq.m_queue.elems.length → lstate bq' = LState.NON_EMPTY)) ∧
    lstate (bq.push e) = LState.NON_EMPTY ∧
    (lstate bq = LState.NON_EMPTY → bq.pop ≠ none) := by
  have hpush : lstate (bq.push e) = LState.NON_EMPTY := by
    simp [lstate, StdQueue.isEmpty, push_elems]
  refine ⟨rfl, fun _ => hpush, fun hpop => ?_, hpush, fun hne => ?_⟩
  · have helems := ((pop_eq_some bq x bq').1 hpop).1
    refine ⟨by simp [lstate, StdQueue.isEmpty, helems], fun hlen => ?_,
      fun hlen => ?_⟩
    · rw [helems] at hlen
      simp only [List.length_cons, Nat.add_left_eq_self] at hlen
      have : bq'.m_queue.elems = [] := List.length_eq_zero.mp hlen
      simp [lstate, StdQueue.isEmpty, this]
    · rw [helems] at hlen
      simp only [List.length_cons] at hlen
      have : bq'.m_queue.elems ≠ [] := by
        intro hn
        rw [hn] at hlen
        simp at hlen
      cases hb : bq'.m_queue.elems with
      | nil => exact absurd hb this
      | cons y ys => simp [lstate, StdQueue.isEmpty, hb]
  · intro hn
    rw [pop_eq_none_iff] at hn
    simp [lstate, StdQueue.isEmpty, hn] at hne

/-- Witness for C5: on the one-element queue `[4]`, a pop removes the last
element and reaches `EMPTY`, and a push always yields `NON_EMPTY`. -/
theorem state_machine_transitions_witness :
    lstate (blocking_queue.new Nat) = LState.EMPTY ∧
    lstate ((⟨⟨[4]⟩⟩ : blocking_queue Nat).push 9) = LState.NON_EMPTY ∧
    lstate (⟨⟨[]⟩⟩ : blocking_queue Nat) = LState.EMPTY :=
  ⟨(state_machine_transitions Nat ⟨⟨[4]⟩⟩ ⟨⟨[]⟩⟩ 9 4).1,
   (state_machine_transitions Nat ⟨⟨[4]⟩⟩ ⟨⟨[]⟩⟩ 9 4).2.2.2.1,
   (((state_machine_transitions Nat ⟨⟨[4]⟩⟩ ⟨⟨[]⟩⟩ 9 4).2.2.1 rfl).2.1 rfl)⟩


/-- C3: blocking correctness — in the monitor transition system, no `pop`
can return from a state with an empty buffer; the buffer can only become
non-empty through a `push`; after a `push` of `e` into an empty buffer with
blocked waiters, one blocked `pop` can resume and return exactly `e`; any
`pop` returning from that state returns `e` and empties the buffer again,
so the remaining waiters stay blocked until the next `push`. -/
theorem blocking_correctness (T : Type) (e : T) (w : Nat) :
    (∀ (s s' : MonState T) (x : T),
      Step s (Label.popReturn x) s' → s.buffer ≠ []) ∧
    (∀ (s s' : MonState T) (l : Label T),
      Step s l s' → s.buffer = [] → s'.buffer ≠ [] →
        ∃ x, l = Label.pushDone x) ∧
    Step (⟨[], w + 1⟩ : MonState T) (Label.pushDone e) ⟨[e], w + 1⟩ ∧
    Step (⟨[e], w + 1⟩ : MonState T) (Label.popReturn e) ⟨[], w⟩ ∧
    (∀ (s' : MonState T) (x : T),
      Step ⟨[e], w + 1⟩ (Label.popReturn x) s' → x = e ∧ s'.buffer = []) ∧
    (∀ (s' : MonState T) (x : T),
      ¬ Step (⟨[], w⟩ : MonState T) (Label.popReturn x) s') := by
  refine ⟨?_, ?_, ?_, ?_, ?_, ?_⟩
  · intro s s' x hstep
    cases hstep <;> simp_all
  · intro s s' l hstep hse hne
    cases hstep with
    | pushStep y => exact ⟨y, rfl⟩
    | popSuspend h => exact absurd rfl hne
    | popResume y rest h hw => rw [hse] at h; cases h
    | popImmediate y rest h => rw [hse] at h; cases h
    | wakeEmpty h hw => exact absurd hse hne
  · exact Step.pushStep ⟨[], w + 1⟩ e
  · exact Step.popResume ⟨[e], w + 1⟩ e [] rfl (Nat.succ_pos w)
  · intro s' x hstep
    cases hstep <;> simp_all
  · intro s' x hstep
    cases hstep <;> simp_all

/-- Witness for C3 at a concrete instance: with one waiter, a push of `5`
into the empty buffer enables exactly one pop to return `5` and empty the
buffer, and no pop can return from the empty buffer with no element. -/
theorem blocking_correctness_witness :
    Step (⟨[], 1⟩ : MonState Nat) (Label.pushDone 5) ⟨[5], 1⟩ ∧
    Step (⟨[5], 1⟩ : MonState Nat) (Label.popReturn 5) ⟨[], 0⟩ ∧
    ¬ Step (⟨[], 0⟩ : MonState Nat) (Label.popReturn 5) ⟨[], 0⟩ :=
  ⟨(blocking_correctness Nat 5 0).2.2.1,
   (blocking_correctness Nat 5 0).2.2.2.1,
   (blocking_correctness Nat 5 0).2.2.2.2.2 ⟨[], 0⟩ 5⟩

/-- C6: pop removes an element only from a non-empty buffer — every
`popReturn` step of the monitor starts from a non-empty buffer and removes
exactly its head; a wakeup with an empty buffer only re-checks the
predicate and leaves the waiter suspended with the state unchanged; and in
the `pop` body, once the wait predicate `!m_queue.empty()` holds, the read
of `m_queue.front()` cannot hit the undefined empty case, so the
empty-buffer access branch is unreachable. -/
theorem pop_removal_requires_nonempty (T : Type) :
    (∀ (s s' : MonState T) (x : T),
      Step s (Label.popReturn x) s' →
        s.buffer ≠ [] ∧ s.buffer.head? = some x ∧
          s'.buffer = s.buffer.tail) ∧
    (∀ s : MonState T, s.buffer = [] → 0 < s.waiting →
      Step s Label.wakeRecheck s) ∧
    (∀ bq : blocking_queue T,
      bq.m_queue.isEmpty = false → bq.m_queue.front ≠ none) ∧
    (∀ (bq : blocking_queue T) (x : T) (bq' : blocking_queue T),
      bq.pop = some (x, bq') → bq.m_queue.elems ≠ []) := by
  refine ⟨?_, ?_, ?_, ?_⟩
  · intro s s' x hstep
    cases hstep <;> simp_all
  · intro s hb hw
    exact Step.wakeEmpty s hb hw
  · intro bq hne
    cases hb : bq.m_queue.elems with
    | nil => simp [StdQueue.isEmpty, hb] at hne
    | cons y ys => simp [StdQueue.front, hb]
  · intro bq x bq' hpop
    have := ((pop_eq_some bq x bq').1 hpop).1
    simp [this]

/-- Witness for C6 at a concrete instance: the one-element queue `[7]` has
a non-empty buffer, a defined front, and its monitor state with one waiter
and empty buffer can only re-check and keep waiting. -/
theorem pop_removal_requires_nonempty_witness :
    (⟨⟨[7]⟩⟩ : blocking_queue Nat).m_queue.elems ≠ [] ∧
    (⟨⟨[7]⟩⟩ : blocking_queue Nat).m_queue.front ≠ none ∧
    Step (⟨[], 1⟩ : MonState Nat) Label.wakeRecheck ⟨[], 1⟩ :=
  ⟨(pop_removal_requires_nonempty Nat).2.2.2 ⟨⟨[7]⟩⟩ 7 ⟨⟨[]⟩⟩ rfl,
   (pop_removal_requires_nonempty Nat).2.2.1 ⟨⟨[7]⟩⟩ rfl,
   (pop_removal_requires_nonempty Nat).2.1 ⟨[], 1⟩ rfl (Nat.succ_pos 0)⟩

/-- C8: frame of push and pop — `push(elem)` appends `elem` at the tail,
leaving every element already in the buffer unchanged at its position, and
a successful `pop` removes and returns exactly the head element, leaving
the remaining elements unchanged in their relative order (each shifted one
position toward the front). -/
theorem push_pop_frame (T : Type) (bq bq' : blocking_queue T) (e x : T) :
    (bq.push e).m_queue.elems.length = bq.m_queue.elems.length + 1 ∧
    (∀ i, i < bq.m_queue.elems.length →
      (bq.push e).m_queue.elems[i]? = bq.m_queue.elems[i]?) ∧
    (bq.push e).m_queue.elems[bq.m_queue.elems.length]? = some e ∧
    (bq.pop = some (x, bq') →
      bq.m_queue.elems.head? = some x ∧
      bq'.m_queue.elems = bq.m_queue.elems.tail ∧
      ∀ i, bq'.m_queue.elems[i]? = bq.m_queue.elems[i + 1]?) := by
  refine ⟨?_, ?_, ?_, ?_⟩
  · simp [push_elems]
  · intro i hi
    simp [push_elems, List.getElem?_append, hi]
  · rw [push_elems]
    simp
  · intro hpop
    have helems := ((pop_eq_some bq x bq').1 hpop).1
    refine ⟨by rw [helems]; rfl, by rw [helems]; rfl, fun i => ?_⟩
    rw [helems]
    simp

/-- Witness for C8 at a concrete instance: pushing `3` onto `[1, 2]` keeps
position 0 intact and puts `3` at position 2, and popping `[1, 2]` returns
head `1` leaving `[2]`. -/
theorem push_pop_frame_witness :
    ((⟨⟨[1, 2]⟩⟩ : blocking_queue Nat).push 3).m_queue.elems[0]? =
      (⟨⟨[1, 2]⟩⟩ : blocking_queue Nat).m_queue.elems[0]? ∧
    (⟨⟨[1, 2]⟩⟩ : blocking_queue Nat).m_queue.elems.head? = some 1 ∧
    (⟨⟨[2]⟩⟩ : blocking_queue Nat).m_queue.elems =
      (⟨⟨[1, 2]⟩⟩ : blocking_queue Nat).m_queue.elems.tail :=
  ⟨(push_pop_frame Nat ⟨⟨[1, 2]⟩⟩ ⟨⟨[2]⟩⟩ 3 1).2.1 0 (by decide),
   ((push_pop_frame Nat ⟨⟨[1, 2]⟩⟩ ⟨⟨[2]⟩⟩ 3 1).2.2.2 rfl).1,
   ((push_pop_frame Nat ⟨⟨[1, 2]⟩⟩ ⟨⟨[2]⟩⟩ 3 1).2.2.2 rfl).2.1⟩

end BQ
